import Mathlib

/-!
Formal model of the `client` Go package: an HTTP convenience wrapper with
base-URL resolution, path joining, query-parameter encoding, default and
per-request header merging, and response capture with non-2xx classification.

The Go sources are embedded shallowly:
  - `map[string][]string` values (`url.Values`, `http.Header`) become
    association lists with unique keys, `List (String × List String)`;
  - nil maps and nil pointers become `Option`;
  - fallible Go functions returning `(T, error)` become `Except String T`
    or a structured error type where the code matches sentinels;
  - byte-level stdlib string routines (`path.Clean`, query escaping,
    `net/url` parsing) are modelled character-wise, which coincides with
    the Go byte-wise behaviour on ASCII data (all data in this package
    and its tests is ASCII).
-/

namespace ClientModel

/-! ## Strings: ASCII upper/lower casing (models strings.ToUpper / ToLower
on the ASCII subset actually used for HTTP method and scheme tokens). -/

def stringToUpper (s : String) : String :=
  String.mk (s.toList.map Char.toUpper)

def stringToLower (s : String) : String :=
  String.mk (s.toList.map Char.toLower)

/-- Splitting on a separator character (`strings.Split` for a
one-character separator); an empty input gives one empty segment. -/
def splitOnChar (sep : Char) : List Char → List (List Char)
  | [] => [[]]
  | c :: rest =>
    match splitOnChar sep rest with
    | [] => [[]]
    | seg :: segs => if c = sep then [] :: seg :: segs else (c :: seg) :: segs

/-- Joining with a separator string (`strings.Join`). -/
def joinWith (sep : String) : List String → String
  | [] => ""
  | [s] => s
  | s :: rest => s ++ sep ++ joinWith sep rest

/-- `strings.HasPrefix(s, "/")` for the one-character prefix used here. -/
def startsWithSlash (s : String) : Bool :=
  match s.toList with
  | '/' :: _ => true
  | _ => false

/-! ## validateMethod (src/helpers.go)

```go
func validateMethod(method string) (string, error) {
    if method == "" {
        return "", errors.New("http method is empty")
    }
    m := strings.ToUpper(method)
    switch m {
    case http.MethodGet, http.MethodPost, http.MethodPut, http.MethodPatch,
         http.MethodDelete, http.MethodHead, http.MethodOptions,
         http.MethodTrace, http.MethodConnect:
        return m, nil
    default:
        return "", fmt.Errorf("unsupported http method %q", method)
    }
}
```
The `%q` verb quotes the original string; for strings without escapes this
is the string wrapped in double quotes. -/

def supportedMethods : List String :=
  ["GET", "POST", "PUT", "PATCH", "DELETE", "HEAD", "OPTIONS", "TRACE", "CONNECT"]

def goQuote (s : String) : String :=
  "\"" ++ s ++ "\""

def validateMethod (method : String) : Except String String :=
  if method = "" then
    .error "http method is empty"
  else
    let m := stringToUpper method
    if m ∈ supportedMethods then
      .ok m
    else
      .error ("unsupported http method " ++ goQuote method)

/-! ## path.Clean and path.Join (Go standard library `path`)

`Clean` is modelled by its documented lexical algorithm on slash-separated
segments: drop empty and "." segments; ".." pops a previous segment, is
dropped at the root of a rooted path, and is kept at the head of an
unrooted path. The result is re-joined, keeping the leading "/" of a
rooted path; an empty result is "." (unrooted) or "/" (rooted), and an
empty input is ".". -/

def cleanLoop (rooted : Bool) : List String → List String → List String
  | [], acc => acc.reverse
  | seg :: rest, acc =>
    if seg = "" || seg = "." then
      cleanLoop rooted rest acc
    else if seg = ".." then
      match acc with
      | [] => if rooted then cleanLoop rooted rest [] else cleanLoop rooted rest [".."]
      | top :: accTail =>
        if top = ".." then cleanLoop rooted rest (seg :: acc)
        else cleanLoop rooted rest accTail
    else
      cleanLoop rooted rest (seg :: acc)

def pathClean (p : String) : String :=
  if p = "" then "."
  else
    let rooted := startsWithSlash p
    let segs := cleanLoop rooted ((splitOnChar '/' p.toList).map String.mk) []
    let joined := joinWith "/" segs
    if rooted then
      if joined = "" then "/" else "/" ++ joined
    else
      if joined = "" then "." else joined

/-- Models `path.Join(a, b)`: join the non-empty elements with "/" and
Clean the result; all-empty input yields "". -/
def pathJoin (a b : String) : String :=
  if a ≠ "" then pathClean (a ++ "/" ++ b)
  else if b ≠ "" then pathClean b
  else ""

/-! ## url.Values and http.Header

Both Go types are `map[string][]string`; a Go map has unique keys and is
modelled as an association list. `Add` appends one value to the slice of
an existing key, or inserts the key at the end. -/

abbrev Values := List (String × List String)

abbrev HeaderMap := List (String × List String)

/-- Models map indexing `m[k]`: the value slice of `k`, nil (here `[]`)
when `k` is absent. -/
def valuesGet : Values → String → List String
  | [], _ => []
  | (k0, vs) :: rest, k => if k0 = k then vs else valuesGet rest k

/-- Models `url.Values.Add`: `v[key] = append(v[key], value)`. -/
def valuesAdd : Values → String → String → Values
  | [], k, v => [(k, [v])]
  | (k0, vs) :: rest, k, v =>
    if k0 = k then (k0, vs ++ [v]) :: rest
    else (k0, vs) :: valuesAdd rest k v

/-- The inner loop `for _, v := range vals { q.Add(k, v) }`. -/
def valuesAddList : Values → String → List String → Values
  | q, _, [] => q
  | q, k, v :: vs => valuesAddList (valuesAdd q k v) k vs

/-- The loop `for k, vals := range params { for _, v := range vals { q.Add(k, v) } }`.
Go map iteration order is unspecified; the model iterates the association
list in order, which yields the same per-key value slices. -/
def valuesAddAll : Values → Values → Values
  | q, [] => q
  | q, (k, vs) :: ps => valuesAddAll (valuesAddList q k vs) ps

/-! ## Query escaping (net/url, mode encodeQueryComponent)

`QueryEscape` leaves ASCII alphanumerics and `-_.~` alone, turns a space
into `+`, and percent-encodes every other byte with uppercase hex.
`QueryUnescape` inverts this, failing on a malformed percent escape. -/

def hexDigitChars : List Char :=
  ['0', '1', '2', '3', '4', '5', '6', '7', '8', '9', 'A', 'B', 'C', 'D', 'E', 'F']

def byteToHex (n : Nat) : List Char :=
  [hexDigitChars.getD (n / 16 % 16) '0', hexDigitChars.getD (n % 16) '0']

def isUnreservedQueryChar (c : Char) : Bool :=
  c.isAlphanum || c = '-' || c = '_' || c = '.' || c = '~'

def queryEscapeChar (c : Char) : List Char :=
  if isUnreservedQueryChar c then [c]
  else if c = ' ' then ['+']
  else '%' :: byteToHex c.toNat

def queryEscape (s : String) : String :=
  String.mk (s.toList.map queryEscapeChar).flatten

def unhexDigit (c : Char) : Option Nat :=
  if '0' ≤ c ∧ c ≤ '9' then some (c.toNat - '0'.toNat)
  else if 'a' ≤ c ∧ c ≤ 'f' then some (c.toNat - 'a'.toNat + 10)
  else if 'A' ≤ c ∧ c ≤ 'F' then some (c.toNat - 'A'.toNat + 10)
  else none

/-- Models `unescape`: decodes `%XX` escapes; when `plusToSpace` is set
(query-component mode) `+` decodes to a space. Fails (`none`) on a
malformed percent escape, like Go `EscapeError`. -/
def unescapeChars (plusToSpace : Bool) : List Char → Option (List Char)
  | [] => some []
  | '%' :: a :: b :: rest =>
    match unhexDigit a, unhexDigit b, unescapeChars plusToSpace rest with
    | some ha, some hb, some r => some (Char.ofNat (16 * ha + hb) :: r)
    | _, _, _ => none
  | '%' :: _ => none
  | c :: rest =>
    let c := if plusToSpace ∧ c = '+' then ' ' else c
    match unescapeChars plusToSpace rest with
    | some r => some (c :: r)
    | none => none

/-- Models `strings.Cut(s, sep)` for a one-character separator, on
character lists: the part before the first `sep` and the part after it
(empty when `sep` is absent, as in Go where `after` is `""`). -/
def cutChar (sep : Char) : List Char → List Char × List Char
  | [] => ([], [])
  | c :: rest =>
    if c = sep then ([], rest)
    else
      let p := cutChar sep rest
      (c :: p.1, p.2)

/-- Models `url.ParseQuery` as used by `url.URL.Query()` (which discards
the error and keeps the accumulated map): split on `&`, skip empty
segments and segments containing `;`, cut each segment at the first `=`,
query-unescape key and value, skip the segment if either fails, and add
the pair with map-Add semantics. -/
def parseQueryGo (s : String) : Values :=
  ((splitOnChar '&' s.toList).map String.mk).foldl
    (fun m seg =>
      if seg = "" then m
      else if seg.toList.contains ';' then m
      else
        let kv := cutChar '=' seg.toList
        match unescapeChars true kv.1, unescapeChars true kv.2 with
        | some k, some v => valuesAdd m (String.mk k) (String.mk v)
        | _, _ => m)
    []

/-- Byte-order comparison of strings (`sort.Strings` order; coincides
with character order on ASCII). -/
def strLeList : List Char → List Char → Bool
  | [], _ => true
  | _ :: _, [] => false
  | a :: as, b :: bs =>
    if a.toNat < b.toNat then true
    else if b.toNat < a.toNat then false
    else strLeList as bs

def strLe (s t : String) : Bool :=
  strLeList s.toList t.toList

def insertSortedStr (s : String) : List String → List String
  | [] => [s]
  | t :: ts => if strLe s t then s :: t :: ts else t :: insertSortedStr s ts

/-- Models `sort.Strings` (insertion sort; the keys of a map are distinct
so stability is irrelevant). -/
def sortStrings : List String → List String
  | [] => []
  | s :: ss => insertSortedStr s (sortStrings ss)

/-- Models `url.Values.Encode`: keys in sorted order, each value of each
key emitted as `key=value` with both parts query-escaped, joined by `&`. -/
def valuesEncode (q : Values) : String :=
  joinWith "&"
    ((sortStrings (q.map Prod.fst)).map
      (fun k => (valuesGet q k).map (fun v => queryEscape k ++ "=" ++ queryEscape v))).flatten

/-! ## url.URL and buildURL (src/helpers.go)

The model keeps the `url.URL` fields the package reads or writes
(`Scheme`, `Host`, `Path`, `RawQuery`) plus `Opaque` (written by
`url.Parse` for scheme-and-no-slash URLs); the remaining fields are never
touched by this package. `u := *base` is a struct copy, so the model
simply starts from the base value.

```go
func buildURL(base *url.URL, extraPath string, params url.Values) (*url.URL, error) {
    if base == nil {
        return nil, errors.New("base URL is nil")
    }
    u := *base
    if extraPath != "" {
        if strings.HasPrefix(extraPath, "/") {
            u.Path = path.Clean(extraPath)
        } else {
            u.Path = path.Join(u.Path, extraPath)
        }
    }
    if params != nil && len(params) > 0 {
        q := u.Query()
        for k, vals := range params {
            for _, v := range vals {
                q.Add(k, v)
            }
        }
        u.RawQuery = q.Encode()
    }
    return &u, nil
}
```
-/

structure URL where
  scheme : String := ""
  opq : String := ""
  host : String := ""
  path : String := ""
  rawQuery : String := ""
deriving DecidableEq, Repr

/-- The `if extraPath != ""` block of `buildURL`: an absolute extra path
replaces the path with its Clean, a relative one is Joined onto it. -/
def buildURLPath (u : URL) (extraPath : String) : URL :=
  if extraPath ≠ "" then
    if startsWithSlash extraPath then { u with path := pathClean extraPath }
    else { u with path := pathJoin u.path extraPath }
  else u

/-- The `if params != nil && len(params) > 0` block of `buildURL`:
`q := u.Query(); ...Add loop...; u.RawQuery = q.Encode()`. -/
def buildURLQuery (u : URL) (params : Option Values) : URL :=
  match params with
  | some ps =>
    if ps.length > 0 then
      { u with rawQuery := valuesEncode (valuesAddAll (parseQueryGo u.rawQuery) ps) }
    else u
  | none => u

def buildURL (base : Option URL) (extraPath : String) (params : Option Values) :
    Except String URL :=
  match base with
  | none => .error "base URL is nil"
  | some b => .ok (buildURLQuery (buildURLPath b extraPath) params)

/-! ## http.Header.Add and textproto.CanonicalMIMEHeaderKey

`Header.Add` canonicalizes the key and appends with map-Add semantics:
`h[CanonicalMIMEHeaderKey(key)] = append(..., value)`. Canonicalization
returns the key unchanged when it contains a byte that is not a valid
header-token byte; otherwise it uppercases a letter at the start or after
a hyphen and lowercases every other letter. -/

def isTokenChar (c : Char) : Bool :=
  c.isAlphanum ||
    c ∈ ['!', '#', '$', '%', '&', '*', '+', '-', '.', '^', '_', '|', '~'] ||
    c = Char.ofNat 39 || c = Char.ofNat 96

def upcaseChar (c : Char) : Char :=
  if 'a' ≤ c ∧ c ≤ 'z' then Char.ofNat (c.toNat - 32) else c

def downcaseChar (c : Char) : Char :=
  if 'A' ≤ c ∧ c ≤ 'Z' then Char.ofNat (c.toNat + 32) else c

def canonicalLoop : Bool → List Char → List Char
  | _, [] => []
  | upper, c :: rest =>
    (if upper then upcaseChar c else downcaseChar c) :: canonicalLoop (c = '-') rest

def canonicalMIMEHeaderKey (s : String) : String :=
  if s.toList.all isTokenChar then String.mk (canonicalLoop true s.toList)
  else s

/-- Models `http.Header.Add`. -/
def headerAdd (h : HeaderMap) (k v : String) : HeaderMap :=
  valuesAdd h (canonicalMIMEHeaderKey k) v

def headerAddList : HeaderMap → String → List String → HeaderMap
  | h, _, [] => h
  | h, k, v :: vs => headerAddList (headerAdd h k v) k vs

def headerAddAll : HeaderMap → HeaderMap → HeaderMap
  | m, [] => m
  | m, (k, vs) :: hs => headerAddAll (headerAddList m k vs) hs

/-- Models `http.Header.Clone`, a deep copy; on immutable model values the
copy has the same contents. -/
def headerClone (h : HeaderMap) : HeaderMap := h

/-! ## mergeHeaders (src/helpers.go)

```go
func mergeHeaders(base, extra http.Header) http.Header {
    merged := make(http.Header)
    if base != nil {
        for k, vals := range base {
            for _, v := range vals {
                merged.Add(k, v)
            }
        }
    }
    if extra != nil {
        for k, vals := range extra {
            for _, v := range vals {
                merged.Add(k, v)
            }
        }
    }
    return merged
}
```
The result is a freshly allocated map (`make`), populated only through
`Add`, so it shares no value slices with either input and neither input
is written to; in the model this is value semantics. -/

def mergeHeaders (base extra : Option HeaderMap) : HeaderMap :=
  let merged : HeaderMap := []
  let merged := match base with
    | none => merged
    | some b => headerAddAll merged b
  match extra with
  | none => merged
  | some e => headerAddAll merged e

/-! ## url.Parse (net/url)

Modelled for general-form URLs (`[scheme:][//host][path][?query][#fragment]`):
control characters are rejected; `getScheme` scans for a scheme and fails
with "missing protocol scheme" on a leading colon; a scheme-and-no-slash
remainder becomes an opaque URL; an authority is cut at the next `/`, its
userinfo part dropped from the model, its port validated as digits and its
host bytes checked against the host character set; the path is
percent-unescaped (no plus conversion); the query is kept raw; the
fragment is unescaped only to validate it. IPv6 bracket hosts and
percent-escapes in hosts are outside the model. -/

def isCTLChar (c : Char) : Bool :=
  c.toNat < 32 || c.toNat = 127

def getSchemeLoop (orig : String) : List Char → List Char → Except String (String × String)
  | [], _ => .ok ("", orig)
  | c :: rest, acc =>
    if c.isAlpha then getSchemeLoop orig rest (c :: acc)
    else if c.isDigit || c = '+' || c = '-' || c = '.' then
      if acc = [] then .ok ("", orig) else getSchemeLoop orig rest (c :: acc)
    else if c = ':' then
      if acc = [] then .error "missing protocol scheme"
      else .ok (String.mk acc.reverse, String.mk rest)
    else .ok ("", orig)

/-- Models `getScheme`: splits `s` into a scheme (lowercased by the
caller) and the remainder; a URL starting with `:` is an error and a URL
whose first scheme-candidate byte is not a letter has no scheme. -/
def getScheme (s : String) : Except String (String × String) :=
  getSchemeLoop s s.toList []

def isHostChar (c : Char) : Bool :=
  c.isAlphanum ||
    c ∈ ['-', '_', '.', '~', '!', '$', '&', '(', ')', '*', '+', ',', ';', '=', ':',
         '[', ']', '<', '>', '"'] ||
    c = Char.ofNat 39

/-- Models `parseHost` for non-bracketed hosts: the part after the last
colon must be all digits (`validOptionalPort`), and every byte must be
permitted in a host. -/
def parseHost (host : String) : Except String String :=
  let cs := host.toList
  let port := (cutChar ':' cs.reverse).1.reverse
  if cs.contains ':' ∧ ¬port.all Char.isDigit then
    .error ("invalid port " ++ goQuote (String.mk (':' :: port)) ++ " after host")
  else if ¬cs.all isHostChar then
    .error "invalid character in host name"
  else
    .ok host

/-- Splits `s` at the first `/`, keeping the slash with the second part:
the authority and the path of `//authority/path`. -/
def splitAuthority : List Char → List Char × List Char
  | [] => ([], [])
  | c :: rest =>
    if c = '/' then ([], c :: rest)
    else
      let p := splitAuthority rest
      (c :: p.1, p.2)

def urlParse (rawURL : String) : Except String URL :=
  if rawURL.toList.any isCTLChar then
    .error "net/url: invalid control character in URL"
  else
    let cut := cutChar '#' rawURL.toList
    let frag := cut.2
    match unescapeChars false frag with
    | none => .error "invalid URL escape in fragment"
    | some _ =>
      let u := String.mk cut.1
      if u = "*" then .ok { path := "*" }
      else
        match getScheme u with
        | .error e => .error e
        | .ok (scheme0, rest0) =>
          let scheme := stringToLower scheme0
          let restCut := cutChar '?' rest0.toList
          let rest := restCut.1
          let rawQuery := String.mk restCut.2
          if scheme ≠ "" ∧ ¬(rest.take 1 = ['/']) then
            .ok { scheme := scheme, opq := String.mk rest, rawQuery := rawQuery }
          else if rest.take 2 = ['/', '/'] then
            let ap := splitAuthority (rest.drop 2)
            let authority := (cutChar '@' ap.1.reverse).1.reverse
            match parseHost (String.mk authority) with
            | .error e => .error e
            | .ok host =>
              match unescapeChars false ap.2 with
              | none => .error "invalid URL escape in path"
              | some p =>
                .ok { scheme := scheme, host := host, path := String.mk p,
                      rawQuery := rawQuery }
          else
            if scheme = "" ∧ (cutChar '/' rest).1.contains ':' then
              .error "first path segment in URL cannot contain colon"
            else
              match unescapeChars false rest with
              | none => .error "invalid URL escape in path"
              | some p =>
                .ok { scheme := scheme, path := String.mk p, rawQuery := rawQuery }

/-! ## Client, options and construction (src/client.go, options file)

The model keeps the fields the verified claims depend on: the parsed base
URL (`base`, a pointer in Go, hence `Option`), the default header map
(`headers`, a nil-able Go map, hence `Option`), and the transport timeout
carried into `http.Client` (`time.Duration`, an integer nanosecond
count). The logger is an opaque side-effecting collaborator and is not
modelled. -/

structure Client where
  base : Option URL := none
  headers : Option HeaderMap := none
  timeout : Int := 0
deriving DecidableEq, Repr

/-- `DefaultTimeout = 10 * time.Second` in nanoseconds. -/
def DefaultTimeout : Int := 10 * 1000000000

/-- The configuration collected by `applyOptions` before normalization:
`timeout` (zero when unset) and `headers` (nil when unset). -/
structure OptionList where
  timeout : Int := 0
  headers : Option HeaderMap := none
deriving DecidableEq, Repr

/-- Models `applyOptions` after the option closures have run: zero
timeout is normalized to `DefaultTimeout` and nil headers to an empty
map (`normalizeTimeout` / `normalizeHeaders`; `normalizeLogger` concerns
only the unmodelled logger). -/
def applyOptions (o : OptionList) : OptionList :=
  { timeout := if o.timeout = 0 then DefaultTimeout else o.timeout,
    headers := match o.headers with
      | none => some []
      | some h => some h }

/-! ```go
func NewHTTPClient(baseURL string, opts ...Option) (*Client, error) {
    baseParsedURL, err := url.Parse(baseURL)
    if err != nil {
        return nil, fmt.Errorf("invalid base url '%s': %w", baseURL, err)
    }
    suppliedOptions := applyOptions(opts...)
    return &Client{
        base:    baseParsedURL,
        headers: suppliedOptions.headers,
        httpClient: http.Client{Timeout: suppliedOptions.timeout},
        lg: suppliedOptions.lg,
    }, nil
}
``` -/
def NewHTTPClient (baseURL : String) (opts : OptionList) : Except String Client :=
  match urlParse baseURL with
  | .error e =>
    .error ("invalid base url " ++ "'" ++ baseURL ++ "'" ++ ": " ++ e)
  | .ok baseParsedURL =>
    let suppliedOptions := applyOptions opts
    .ok { base := some baseParsedURL,
          headers := suppliedOptions.headers,
          timeout := suppliedOptions.timeout }

/-! ```go
func (c *Client) ReplaceHeaders(h http.Header) {
    if h == nil {
        return
    }
    c.headers = h.Clone()
}
``` -/
def ReplaceHeaders (c : Client) (h : Option HeaderMap) : Client :=
  match h with
  | none => c
  | some h => { c with headers := some (headerClone h) }

/-! ## newRequestWithParams (src/helpers.go)

```go
func (c *Client) newRequestWithParams(ctx context.Context, method string, path string,
    params url.Values, headers http.Header, body io.Reader) (*http.Request, error) {
    u, err := buildURL(c.base, path, params)
    if err != nil {
        return nil, err
    }
    m, err := validateMethod(method)
    if err != nil {
        return nil, err
    }
    req, err := http.NewRequestWithContext(ctx, m, u.String(), body)
    if err != nil {
        return nil, err
    }
    req.Header = mergeHeaders(c.headers, headers)
    return req, nil
}
```
`http.NewRequestWithContext` can only fail on a nil context, an invalid
method byte, or an unparsable URL; after `validateMethod` the method is a
canonical token and `u.String()` of a built URL re-parses, so that error
path is unreachable here and is not modelled. The context and the body
stream are opaque pass-throughs and are not modelled. -/

structure Request where
  method : String
  url : URL
  header : HeaderMap
deriving DecidableEq, Repr

def newRequestWithParams (c : Client) (method : String) (path : String)
    (params : Option Values) (headers : Option HeaderMap) : Except String Request :=
  match buildURL c.base path params with
  | .error e => .error e
  | .ok u =>
    match validateMethod method with
    | .error e => .error e
    | .ok m =>
      .ok { method := m, url := u, header := mergeHeaders c.headers headers }

/-! ## SendRequest (request executor)

```go
func (c *Client) SendRequest(ctx context.Context, method string, path string,
    params url.Values, headers http.Header, body io.Reader) (*Response, error) {
    start := time.Now()
    req, err := c.newRequestWithParams(ctx, method, path, params, headers, body)
    if err != nil {
        ... log ...
        return nil, fmt.Errorf("failed to prepare a request: %w", err)
    }
    resp, err := c.httpClient.Do(req)
    if err != nil {
        ... log ...
        return nil, fmt.Errorf("failed to send a request: %w", err)
    }
    defer func() { if err := resp.Body.Close(); err != nil { ... log ... } }()
    b, err := io.ReadAll(resp.Body)
    if err != nil {
        ... log ...
        return &Response{StatusCode: resp.StatusCode, Headers: resp.Header.Clone()},
            fmt.Errorf("%w: %w", ErrFailedToReadResponseBody, err)
    }
    ... log ...
    res := &Response{StatusCode: resp.StatusCode, Body: b, Headers: resp.Header.Clone()}
    if res.StatusCode < 200 || res.StatusCode > 299 {
        return res, fmt.Errorf("%w: %d", ErrStatusCodeNotSuccess, res.StatusCode)
    }
    return res, nil
}
```
The transport (`c.httpClient.Do`) and the body read (`io.ReadAll`) are
the two effectful collaborators; the model takes the transport as a
function argument whose result carries the body-read outcome as data.
Logging is side-effect only and body close errors are swallowed by the
deferred closure, so neither affects the returned values. Errors built
with `fmt.Errorf("%w...", sentinel, ...)` match their sentinel under
`errors.Is`; the model represents each wrapped sentinel as a constructor
of a closed error type, as the wrapping preserves exactly this structure. -/

inductive SendError where
  | prepareFailed (cause : String)
  | sendFailed (cause : String)
  | readBodyFailed (cause : String)
  | statusNotSuccess (code : Int)
deriving DecidableEq, Repr

instance {ε α : Type} [DecidableEq ε] [DecidableEq α] : DecidableEq (Except ε α) := fun a b =>
  match a, b with
  | .error e, .error f => decidable_of_iff (e = f) (by simp)
  | .ok x, .ok y => decidable_of_iff (x = y) (by simp)
  | .error _, .ok _ => isFalse fun h => Except.noConfusion h
  | .ok _, .error _ => isFalse fun h => Except.noConfusion h

structure TransportResponse where
  statusCode : Int
  header : HeaderMap
  bodyResult : Except String (List Nat)
deriving DecidableEq, Repr

structure Response where
  statusCode : Int := 0
  body : Option (List Nat) := none
  headers : HeaderMap := []
deriving DecidableEq, Repr

def SendRequest (c : Client) (method : String) (path : String)
    (params : Option Values) (headers : Option HeaderMap)
    (transport : Request → Except String TransportResponse) :
    Option Response × Option SendError :=
  match newRequestWithParams c method path params headers with
  | .error e => (none, some (.prepareFailed e))
  | .ok req =>
    match transport req with
    | .error e => (none, some (.sendFailed e))
    | .ok resp =>
      match resp.bodyResult with
      | .error e =>
        (some { statusCode := resp.statusCode, headers := headerClone resp.header },
         some (.readBodyFailed e))
      | .ok b =>
        let res : Response :=
          { statusCode := resp.statusCode, body := some b,
            headers := headerClone resp.header }
        if resp.statusCode < 200 ∨ resp.statusCode > 299 then
          (some res, some (.statusNotSuccess resp.statusCode))
        else
          (some res, none)

/-! ## Lemmas: map-Add semantics of `Values` and `HeaderMap` -/

theorem valuesGet_valuesAdd_same (q : Values) (k v : String) :
    valuesGet (valuesAdd q k v) k = valuesGet q k ++ [v] := by
  induction q with
  | nil => simp [valuesAdd, valuesGet]
  | cons p rest ih =>
    obtain ⟨k0, vs⟩ := p
    by_cases h : k0 = k
    · simp [valuesAdd, valuesGet, h]
    · simp [valuesAdd, valuesGet, h, ih]

theorem valuesGet_valuesAdd_ne (q : Values) (k v k0 : String) (h : k0 ≠ k) :
    valuesGet (valuesAdd q k v) k0 = valuesGet q k0 := by
  induction q with
  | nil => simp [valuesAdd, valuesGet, Ne.symm h]
  | cons p rest ih =>
    obtain ⟨k1, vs⟩ := p
    by_cases h1 : k1 = k
    · subst h1
      simp [valuesAdd, valuesGet, Ne.symm h]
    · simp [valuesAdd, valuesGet, h1, ih]

theorem valuesGet_valuesAddList_same (vs : List String) (q : Values) (k : String) :
    valuesGet (valuesAddList q k vs) k = valuesGet q k ++ vs := by
  induction vs generalizing q with
  | nil => simp [valuesAddList]
  | cons v vs ih => simp [valuesAddList, ih, valuesGet_valuesAdd_same]

theorem valuesGet_valuesAddList_ne (vs : List String) (q : Values) (k k0 : String)
    (h : k0 ≠ k) :
    valuesGet (valuesAddList q k vs) k0 = valuesGet q k0 := by
  induction vs generalizing q with
  | nil => simp [valuesAddList]
  | cons v vs ih => simp [valuesAddList, ih, valuesGet_valuesAdd_ne _ _ _ _ h]

theorem valuesGet_eq_nil_of_not_mem (ps : Values) (k : String)
    (h : k ∉ ps.map Prod.fst) :
    valuesGet ps k = [] := by
  induction ps with
  | nil => simp [valuesGet]
  | cons p rest ih =>
    obtain ⟨k0, vs⟩ := p
    simp only [List.map_cons, List.mem_cons] at h
    push_neg at h
    simp [valuesGet, Ne.symm h.1, ih h.2]

theorem valuesGet_valuesAddAll (ps : Values) (q : Values) (k : String)
    (hnd : (ps.map Prod.fst).Nodup) :
    valuesGet (valuesAddAll q ps) k = valuesGet q k ++ valuesGet ps k := by
  induction ps generalizing q with
  | nil => simp [valuesAddAll, valuesGet]
  | cons p rest ih =>
    obtain ⟨k0, vs⟩ := p
    simp only [List.map_cons, List.nodup_cons] at hnd
    by_cases h : k0 = k
    · subst h
      rw [valuesAddAll, ih _ hnd.2, valuesGet_valuesAddList_same]
      rw [valuesGet_eq_nil_of_not_mem rest k0 hnd.1]
      simp [valuesGet]
    · rw [valuesAddAll, ih _ hnd.2, valuesGet_valuesAddList_ne _ _ _ _ (Ne.symm h)]
      simp [valuesGet, h]

theorem headerAddList_eq_valuesAddList (vs : List String) (m : HeaderMap) (k : String)
    (hc : canonicalMIMEHeaderKey k = k) :
    headerAddList m k vs = valuesAddList m k vs := by
  induction vs generalizing m with
  | nil => rfl
  | cons v vs ih => simp [headerAddList, valuesAddList, headerAdd, hc, ih]

theorem headerAddAll_eq_valuesAddAll (h : HeaderMap) (m : HeaderMap)
    (hc : ∀ p ∈ h, canonicalMIMEHeaderKey p.1 = p.1) :
    headerAddAll m h = valuesAddAll m h := by
  induction h generalizing m with
  | nil => rfl
  | cons p rest ih =>
    obtain ⟨k0, vs⟩ := p
    have hk : canonicalMIMEHeaderKey k0 = k0 := hc (k0, vs) (by simp)
    rw [headerAddAll, valuesAddAll, headerAddList_eq_valuesAddList _ _ _ hk]
    exact ih _ (fun p hp => hc p (by simp [hp]))

theorem buildURLPath_rawQuery (u : URL) (ep : String) :
    (buildURLPath u ep).rawQuery = u.rawQuery := by
  unfold buildURLPath
  split_ifs <;> rfl

/-! ## Concrete example values used by witnesses -/

/-- The base URL `https://example.com/api` of the repository tests. -/
def exampleBase : URL :=
  { scheme := "https", host := "example.com", path := "/api" }

/-- The base URL `https://example.com/api?x=1` of the repository tests. -/
def exampleBaseQ : URL :=
  { scheme := "https", host := "example.com", path := "/api", rawQuery := "x=1" }

/-- The base URL `https://example.com/api?foo=1` of the repository tests. -/
def exampleBaseFoo : URL :=
  { scheme := "https", host := "example.com", path := "/api", rawQuery := "foo=1" }

/-! ## Claim theorems -/

/-- C1: evaluation of `buildURL` at the input the claim describes. With
base path `/api` and the absolute extra path `/v12//items`, the code
takes the `strings.HasPrefix(extraPath, "/")` branch and sets the path to
`path.Clean("/v12//items") = "/v12/items"`, discarding the base path
`/api` instead of producing the `/api/v12/items` the claim (and the test
`TestBuildURL/"extra path absolute joins with base path"`) states. -/
theorem buildURL_absolute_extraPath_replaces :
    buildURL (some exampleBase) "/v12//items" none =
      .ok { scheme := "https", host := "example.com", path := "/v12/items" } := by
  decide

/-- C3: `validateMethod` returns the canonical uppercase form when the
uppercased input is a supported method, fails with the "empty method"
error on the empty string, and fails with the "unsupported method" error
naming the original, non-canonicalized input on every other non-empty
string. -/
theorem validateMethod_cases (method : String) :
    (method = "" → validateMethod method = .error "http method is empty") ∧
    (method ≠ "" → stringToUpper method ∈ supportedMethods →
      validateMethod method = .ok (stringToUpper method)) ∧
    (method ≠ "" → stringToUpper method ∉ supportedMethods →
      validateMethod method = .error ("unsupported http method " ++ goQuote method)) := by
  refine ⟨fun h => by simp [validateMethod, h], fun h hm => ?_, fun h hm => ?_⟩
  · simp [validateMethod, h, hm]
  · simp [validateMethod, h, hm]

/-- Witness for C3 at concrete inputs: a mixed-case supported method, the
empty string, and an unsupported token. -/
theorem validateMethod_cases_witness :
    validateMethod "pOSt" = .ok "POST" ∧
    validateMethod "" = .error "http method is empty" ∧
    validateMethod "FOO" = .error "unsupported http method \"FOO\"" := by
  refine ⟨?_, ?_, ?_⟩
  · have h := (validateMethod_cases "pOSt").2.1 (by decide) (by decide)
    simpa using h
  · exact (validateMethod_cases "").1 rfl
  · have h := (validateMethod_cases "FOO").2.2 (by decide) (by decide)
    simpa [goQuote] using h

/-- C5: in `newRequestWithParams` the URL is built before the method is
validated, first failure wins, and errors propagate unchanged: a client
with a nil base URL yields the "base URL is nil" error whatever the
method is, and a method-validation error is returned unchanged when URL
building succeeded. -/
theorem newRequestWithParams_order (c : Client) (method path : String)
    (params : Option Values) (headers : Option HeaderMap) :
    (c.base = none →
      newRequestWithParams c method path params headers = .error "base URL is nil") ∧
    (∀ u e, buildURL c.base path params = .ok u → validateMethod method = .error e →
      newRequestWithParams c method path params headers = .error e) := by
  constructor
  · intro h
    simp [newRequestWithParams, buildURL, h]
  · intro u e hb hv
    simp [newRequestWithParams, hb, hv]

/-- Witness for C5: a nil-base client with an empty (hence also invalid)
method reports the nil base, not the method; with a valid base the
unsupported-method error of `validateMethod` comes back verbatim. -/
theorem newRequestWithParams_order_witness :
    newRequestWithParams { base := none } "" "" none none = .error "base URL is nil" ∧
    newRequestWithParams { base := some exampleBase } "FOO" "" none none = .error "unsupported http method \"FOO\"" := by
  constructor
  · exact (newRequestWithParams_order { base := none } "" "" none none).1 rfl
  · exact (newRequestWithParams_order { base := some exampleBase } "FOO" "" none none).2 exampleBase "unsupported http method \"FOO\"" (by decide) (by decide)

/-- C9: `buildURL` never mutates the base (`u := *base` copies it, and the
model is value-semantic), and with an empty extra path and empty or
absent parameters the returned URL equals the base structurally (same
scheme, host, path and query). -/
theorem buildURL_copy_on_build (b : URL) (params : Option Values)
    (h : params = none ∨ params = some []) :
    buildURL (some b) "" params = .ok b := by
  rcases h with h | h <;> subst h <;> rfl

/-- Witness for C9 at a concrete base, for both the absent and the empty
parameter map. -/
theorem buildURL_copy_on_build_witness :
    buildURL (some exampleBaseQ) "" none = .ok exampleBaseQ ∧
    buildURL (some exampleBaseQ) "" (some []) = .ok exampleBaseQ := by
  constructor
  · exact buildURL_copy_on_build exampleBaseQ none (Or.inl rfl)
  · exact buildURL_copy_on_build exampleBaseQ (some []) (Or.inr rfl)

/-- C10: `ReplaceHeaders` with a nil header map returns early, leaving
the existing default header set — including a nil one — exactly as it
was, and in particular not reset to an empty map. -/
theorem ReplaceHeaders_nil_noop (c : Client) : ReplaceHeaders c none = c := rfl

/-- C2: `mergeHeaders` adds every value of the default mapping first and
every value of the request mapping second, per key in original order, so
a key present in both maps to the concatenation default-then-request;
the result is a fresh value (built by `Add` into a new map, value
semantics in the model) and the claimed concrete example holds exactly.
The per-key law is stated for inputs whose keys are canonical MIME
header keys with no duplicates, which is the invariant of every
`http.Header` built through its own API (Go map keys are unique and
`Header.Add` canonicalizes). -/
theorem mergeHeaders_append_semantics (base extra : Option HeaderMap)
    (hbc : ∀ p ∈ base.getD [], canonicalMIMEHeaderKey p.1 = p.1)
    (hbn : ((base.getD []).map Prod.fst).Nodup)
    (hec : ∀ p ∈ extra.getD [], canonicalMIMEHeaderKey p.1 = p.1)
    (hen : ((extra.getD []).map Prod.fst).Nodup) :
    (∀ k, valuesGet (mergeHeaders base extra) k =
        valuesGet (base.getD []) k ++ valuesGet (extra.getD []) k) ∧
    mergeHeaders (some [("K", ["b1", "b2"]), ("A", ["a1"])])
        (some [("K", ["e1"]), ("Z", ["z1", "z2"])]) =
      [("K", ["b1", "b2", "e1"]), ("A", ["a1"]), ("Z", ["z1", "z2"])] := by
  constructor
  · intro k
    rcases base with _ | b <;> rcases extra with _ | e
    · simp [mergeHeaders, valuesGet]
    · simp only [Option.getD_some, Option.getD_none] at hec hen ⊢
      rw [show mergeHeaders none (some e) = headerAddAll [] e from rfl,
        headerAddAll_eq_valuesAddAll e [] hec,
        valuesGet_valuesAddAll e [] k hen]
    · simp only [Option.getD_some, Option.getD_none] at hbc hbn ⊢
      rw [show mergeHeaders (some b) none = headerAddAll [] b from rfl,
        headerAddAll_eq_valuesAddAll b [] hbc,
        valuesGet_valuesAddAll b [] k hbn]
      simp [valuesGet]
    · simp only [Option.getD_some] at hbc hbn hec hen ⊢
      rw [show mergeHeaders (some b) (some e) =
          headerAddAll (headerAddAll [] b) e from rfl,
        headerAddAll_eq_valuesAddAll b [] hbc,
        headerAddAll_eq_valuesAddAll e _ hec,
        valuesGet_valuesAddAll e _ k hen,
        valuesGet_valuesAddAll b [] k hbn]
      simp [valuesGet]
  · decide

/-- Witness for C2: the claimed concrete merge, obtained by applying the
per-key law at the example inputs for the key present in both maps. -/
theorem mergeHeaders_append_semantics_witness :
    valuesGet (mergeHeaders (some [("K", ["b1", "b2"]), ("A", ["a1"])])
        (some [("K", ["e1"]), ("Z", ["z1", "z2"])])) "K" = ["b1", "b2", "e1"] := by
  have h := (mergeHeaders_append_semantics
    (some [("K", ["b1", "b2"]), ("A", ["a1"])]) (some [("K", ["e1"]), ("Z", ["z1", "z2"])])
    (by decide) (by decide) (by decide) (by decide)).1 "K"
  exact h.trans (by decide)

/-- C8: `buildURL` with a non-empty parameter map appends the parameters
to the query already on the base instead of replacing it: the result
query string encodes the map obtained by adding every value of every
parameter key to the parsed base query, per key the base values followed
by the parameter values; the claimed concrete example ends up with `foo`
mapped to 1 and 2 and `bar` mapped to a and b. -/
theorem buildURL_query_append (b : URL) (extraPath : String) (ps : Values)
    (hne : ps ≠ []) (hnd : (ps.map Prod.fst).Nodup) :
    buildURL (some b) extraPath (some ps) =
      .ok { buildURLPath b extraPath with
            rawQuery := valuesEncode (valuesAddAll (parseQueryGo b.rawQuery) ps) } ∧
    (∀ k, valuesGet (valuesAddAll (parseQueryGo b.rawQuery) ps) k =
        valuesGet (parseQueryGo b.rawQuery) k ++ valuesGet ps k) ∧
    (buildURL (some exampleBaseFoo) "" (some [("foo", ["2"]), ("bar", ["a", "b"])])).toOption.map
        (fun u => (valuesGet (parseQueryGo u.rawQuery) "foo",
                   valuesGet (parseQueryGo u.rawQuery) "bar")) =
      some (["1", "2"], ["a", "b"]) := by
  refine ⟨?_, fun k => valuesGet_valuesAddAll ps _ k hnd, by decide⟩
  have hlen : ps.length > 0 := by
    cases ps with
    | nil => exact absurd rfl hne
    | cons p rest => simp
  show Except.ok (buildURLQuery (buildURLPath b extraPath) (some ps)) = _
  simp [buildURLQuery, hlen, buildURLPath_rawQuery]

/-- Witness for C8 at the claimed inputs: base query `foo=1` plus
parameters `foo:[2], bar:[a,b]` produce the encoded appended query. -/
theorem buildURL_query_append_witness :
    buildURL (some exampleBaseFoo) "" (some [("foo", ["2"]), ("bar", ["a", "b"])]) =
      .ok { scheme := "https", host := "example.com", path := "/api",
            rawQuery := "bar=a&bar=b&foo=1&foo=2" } := by
  have h := (buildURL_query_append exampleBaseFoo "" [("foo", ["2"]), ("bar", ["a", "b"])]
    (by decide) (by decide)).1
  exact h.trans (by decide)

/-- C4: when the transport yields a response and the body read succeeds,
`SendRequest` returns a Response carrying status, body and a header
snapshot, together with an error that is the wrapped "status not
successful" sentinel carrying the code exactly when the status is
outside [200, 299], and no error for a 2xx status. -/
theorem SendRequest_status_classification (c : Client) (method path : String)
    (params : Option Values) (headers : Option HeaderMap)
    (transport : Request → Except String TransportResponse)
    (req : Request) (tr : TransportResponse) (b : List Nat)
    (hreq : newRequestWithParams c method path params headers = .ok req)
    (htr : transport req = .ok tr)
    (hb : tr.bodyResult = .ok b) :
    SendRequest c method path params headers transport =
      (some { statusCode := tr.statusCode, body := some b,
              headers := headerClone tr.header },
        if tr.statusCode < 200 ∨ tr.statusCode > 299 then
          some (.statusNotSuccess tr.statusCode)
        else none) ∧
    ((SendRequest c method path params headers transport).2 ≠ none ↔
      (tr.statusCode < 200 ∨ tr.statusCode > 299)) := by
  have hmain : SendRequest c method path params headers transport =
      (some { statusCode := tr.statusCode, body := some b,
              headers := headerClone tr.header },
        if tr.statusCode < 200 ∨ tr.statusCode > 299 then
          some (SendError.statusNotSuccess tr.statusCode)
        else none) := by
    simp only [SendRequest, hreq, htr, hb]
    by_cases hs : tr.statusCode < 200 ∨ tr.statusCode > 299 <;> simp [hs]
  refine ⟨hmain, ?_⟩
  rw [hmain]
  by_cases hs : tr.statusCode < 200 ∨ tr.statusCode > 299 <;> simp [hs]

/-- Witness transport result for C4: HTTP 418 with a one-byte body. -/
def tr418 : TransportResponse :=
  { statusCode := 418, header := [("X-A", ["1"])], bodyResult := .ok [42] }

/-- Witness request for C4 and C6: GET on the test base URL. -/
def exampleGetRequest : Request :=
  { method := "GET", url := exampleBase, header := [] }

/-- Witness for C4: a handler returning HTTP 418 yields a populated
Response plus the status sentinel error carrying 418. -/
theorem SendRequest_status_classification_witness :
    SendRequest { base := some exampleBase } "GET" "" none none (fun _ => .ok tr418) =
      (some { statusCode := 418, body := some [42], headers := [("X-A", ["1"])] },
        some (.statusNotSuccess 418)) := by
  have h := (SendRequest_status_classification { base := some exampleBase } "GET" ""
    none none (fun _ => .ok tr418) exampleGetRequest tr418 [42]
    (by decide) rfl rfl).1
  exact h.trans (by decide)

/-- C6: when the transport yields a response but reading the body fails,
`SendRequest` returns a Response with the status code and a cloned header
snapshot and no body, together with the wrapped "failed to read response
body" sentinel. -/
theorem SendRequest_read_failure (c : Client) (method path : String)
    (params : Option Values) (headers : Option HeaderMap)
    (transport : Request → Except String TransportResponse)
    (req : Request) (tr : TransportResponse) (e : String)
    (hreq : newRequestWithParams c method path params headers = .ok req)
    (htr : transport req = .ok tr)
    (hb : tr.bodyResult = .error e) :
    SendRequest c method path params headers transport =
      (some { statusCode := tr.statusCode, body := none,
              headers := headerClone tr.header },
        some (.readBodyFailed e)) := by
  simp only [SendRequest, hreq, htr, hb]

/-- Witness transport result for C6: a 200 response whose body read
fails. -/
def trReadFail : TransportResponse :=
  { statusCode := 200, header := [("X-A", ["1"])], bodyResult := .error "boom" }

/-- Witness for C6: the partial Response (status and headers, no body)
comes back together with the read-failure sentinel. -/
theorem SendRequest_read_failure_witness :
    SendRequest { base := some exampleBase } "GET" "" none none (fun _ => .ok trReadFail) =
      (some { statusCode := 200, body := none, headers := [("X-A", ["1"])] },
        some (.readBodyFailed "boom")) := by
  have h := SendRequest_read_failure { base := some exampleBase } "GET" "" none none
    (fun _ => .ok trReadFail) exampleGetRequest trReadFail "boom" (by decide) rfl rfl
  exact h.trans (by decide)

/-- Stated from the spec for comparison with the code: "a base URL
string, which must parse as a valid absolute URL". A string is a valid
absolute URL when `url.Parse` succeeds and the result has a scheme
(Go `URL.IsAbs`). -/
def specValidAbsoluteURL (s : String) : Bool :=
  match urlParse s with
  | .ok u => u.scheme ≠ ""
  | .error _ => false

/-- Counterexample to C7 as stated: the relative string `foo/bar` is not
a valid absolute URL, yet `NewHTTPClient` succeeds on it — `url.Parse`
accepts relative URLs and the constructor imposes no absoluteness
check. -/
theorem NewHTTPClient_accepts_non_absolute :
    specValidAbsoluteURL "foo/bar" = false ∧
    NewHTTPClient "foo/bar" {} =
      .ok { base := some { path := "foo/bar" }, headers := some [],
            timeout := DefaultTimeout } := by
  constructor <;> decide

/-- C7 (amended): `NewHTTPClient` returns an error, and no client,
exactly when `url.Parse` fails on the base URL string (absoluteness is
not required); on success the constructed client carries the parsed base
URL, so a successfully constructed client never has a nil base. -/
theorem NewHTTPClient_error_iff_parse_error (baseURL : String) (opts : OptionList) :
    (∀ e, urlParse baseURL = .error e →
      NewHTTPClient baseURL opts =
        .error ("invalid base url " ++ "'" ++ baseURL ++ "'" ++ ": " ++ e)) ∧
    (∀ u, urlParse baseURL = .ok u →
      NewHTTPClient baseURL opts =
        .ok { base := some u, headers := (applyOptions opts).headers,
              timeout := (applyOptions opts).timeout }) ∧
    (∀ cl, NewHTTPClient baseURL opts = .ok cl → cl.base ≠ none) := by
  refine ⟨fun e he => by simp [NewHTTPClient, he],
    fun u hu => by simp [NewHTTPClient, hu], fun cl hcl => ?_⟩
  unfold NewHTTPClient at hcl
  cases h : urlParse baseURL with
  | error e =>
    rw [h] at hcl
    exact Except.noConfusion hcl
  | ok u =>
    rw [h] at hcl
    cases hcl
    simp

/-- Witness for C7 (amended): a parse failure surfaces as the wrapped
construction error, and a parse success yields a client with the parsed
base. -/
theorem NewHTTPClient_error_iff_parse_error_witness :
    NewHTTPClient "://x" {} =
      .error ("invalid base url " ++ "'" ++ "://x" ++ "'" ++ ": " ++ "missing protocol scheme") ∧
    NewHTTPClient "https://example.com" {} =
      .ok { base := some { scheme := "https", host := "example.com" },
            headers := some [], timeout := DefaultTimeout } := by
  constructor
  · exact (NewHTTPClient_error_iff_parse_error "://x" {}).1
      "missing protocol scheme" (by decide)
  · exact ((NewHTTPClient_error_iff_parse_error "https://example.com" {}).2.1
      { scheme := "https", host := "example.com" } (by decide)).trans (by decide)

end ClientModel
